import Mathlib

/-!
Shallow embedding of the WebRTC signaling relay
(src/tools/webrtc-relay/server.py) and of the LAN-address discovery helper
(src/server/app/main.py), together with proofs of the specified properties.

Connections are identified by natural numbers (a websocket object is a
unique identity per accepted session).  The Python set named clients is
modelled as a duplicate-free list with set-semantics add and discard.
Python exceptions are modelled by an explicit inductive type, and a Python
expression that may raise is modelled in the Except monad.
-/

namespace WebrtcRelay

/-- Connection identity: one per accepted websocket session. -/
abbrev Conn := Nat

/-- Python exceptions relevant to the relay.  ConnectionResetError is a
subclass of OSError in Python, but the except tuple in server.py line 60
names both, so we keep them as distinct constructors; osError covers every
other OSError subclass, and other covers every exception outside the tuple. -/
inductive PyExn : Type
  | connectionClosed
  | connectionResetError
  | osError (detail : String)
  | other (name : String)
deriving DecidableEq, Repr

/-- The exception classes caught by the except clause of relay
(server.py line 60): except (ConnectionClosed, ConnectionResetError, OSError). -/
def isTransportClosure : PyExn → Bool
  | .connectionClosed => true
  | .connectionResetError => true
  | .osError _ => true
  | .other _ => false

/-- Python set.add on the clients set (server.py line 52): a no-op when the
element is already present, otherwise the element joins the set. -/
def pyAdd (reg : List Conn) (c : Conn) : List Conn :=
  if c ∈ reg then reg else reg ++ [c]

/-- Python set.discard on the clients set (server.py line 63): removes the
element when present, does nothing (and never raises) when absent. -/
def pyDiscard (reg : List Conn) (c : Conn) : List Conn :=
  reg.filter (fun d => decide (d ≠ c))

theorem mem_pyAdd (reg : List Conn) (c d : Conn) :
    d ∈ pyAdd reg c ↔ d ∈ reg ∨ d = c := by
  unfold pyAdd
  split
  · constructor
    · exact fun h => Or.inl h
    · rintro (h | rfl) <;> assumption
  · simp [or_comm]

theorem mem_pyDiscard (reg : List Conn) (c d : Conn) :
    d ∈ pyDiscard reg c ↔ d ∈ reg ∧ d ≠ c := by
  simp [pyDiscard]

theorem not_mem_pyDiscard_self (reg : List Conn) (c : Conn) :
    c ∉ pyDiscard reg c := by
  simp [mem_pyDiscard]

theorem nodup_pyAdd (reg : List Conn) (c : Conn) (h : reg.Nodup) :
    (pyAdd reg c).Nodup := by
  unfold pyAdd
  split
  · exact h
  · next hc => simpa [List.nodup_append] using ⟨h, fun hm => hc hm⟩

theorem nodup_pyDiscard (reg : List Conn) (c : Conn) (h : reg.Nodup) :
    (pyDiscard reg c).Nodup :=
  h.filter _

/-!
Broadcast fan-out: the inner loop of relay (server.py lines 55..59).

    for client in tuple(clients):
        if client is websocket:
            continue
        with contextlib.suppress(Exception):
            await client.send(message)

The send path of a recipient is modelled by a function into Except: ok ()
when the send completes, error e when it raises e.  The fan-out runs in the
Except monad of the surrounding handler: a raise that escaped the loop body
would surface as Except.error.  contextlib.suppress(Exception) converts any
raise inside its block into normal fall-through, so each iteration records
whether the send was delivered and the loop continues.  The returned log
lists, in loop order, every recipient to whom a delivery was attempted and
whether the send completed.
-/

/-- One loop body of the fan-out under contextlib.suppress(Exception):
the send is attempted and any exception it raises is swallowed; the Bool
records whether the send completed. -/
def sendSuppressed (send : Conn → Except PyExn Unit) (c : Conn) : Bool :=
  match send c with
  | .ok _ => true
  | .error _ => false

/-- The fan-out loop over a snapshot of the clients set (server.py lines
55..59), in the Except monad of the enclosing try block.  The sender is
skipped by the continue on line 57; every other member of the snapshot gets
a delivery attempt. -/
def fanOut (send : Conn → Except PyExn Unit) (ws : Conn) :
    List Conn → Except PyExn (List (Conn × Bool))
  | [] => .ok []
  | c :: rest =>
    if c = ws then
      fanOut send ws rest
    else
      match fanOut send ws rest with
      | .ok log => .ok ((c, sendSuppressed send c) :: log)
      | .error e => .error e

/-- The recipients to whom a delivery was attempted, in loop order. -/
def attemptedOf (log : List (Conn × Bool)) : List Conn :=
  log.map Prod.fst

/-- The recipients whose send completed (the message was delivered). -/
def deliveredOf (log : List (Conn × Bool)) : List Conn :=
  (log.filter Prod.snd).map Prod.fst

/-- The log the fan-out produces, as a total recursion of the same shape as
the loop: the sender is skipped, every other member of the snapshot is
attempted, and the Bool records whether its send completed. -/
def fanOutLog (send : Conn → Except PyExn Unit) (ws : Conn) :
    List Conn → List (Conn × Bool)
  | [] => []
  | c :: rest =>
    if c = ws then fanOutLog send ws rest
    else (c, sendSuppressed send c) :: fanOutLog send ws rest

/-- The fan-out never lets an exception escape to the sender's handler:
whatever the send outcomes, it returns ok with its log.  This is the
contextlib.suppress(Exception) on server.py line 58. -/
theorem fanOut_ok (send : Conn → Except PyExn Unit) (ws : Conn)
    (snapshot : List Conn) :
    fanOut send ws snapshot = .ok (fanOutLog send ws snapshot) := by
  induction snapshot with
  | nil => rfl
  | cons c rest ih =>
    by_cases hc : c = ws
    · simp [fanOut, fanOutLog, hc, ih]
    · simp [fanOut, fanOutLog, hc, ih]

/-- The attempted recipients are exactly the snapshot without the sender,
independently of which sends fail. -/
theorem attempted_fanOutLog (send : Conn → Except PyExn Unit) (ws : Conn)
    (snapshot : List Conn) :
    attemptedOf (fanOutLog send ws snapshot) =
      snapshot.filter (fun c => decide (c ≠ ws)) := by
  induction snapshot with
  | nil => rfl
  | cons c rest ih =>
    by_cases hc : c = ws
    · simp [fanOutLog, hc, List.filter_cons, ih]
    · simp [fanOutLog, attemptedOf, hc, List.filter_cons, ih]
      simpa [attemptedOf] using ih

/-- When every send completes, the delivered recipients are exactly the
snapshot without the sender. -/
theorem delivered_fanOutLog_of_all_ok (send : Conn → Except PyExn Unit)
    (ws : Conn) (snapshot : List Conn) (h : ∀ c, send c = .ok ()) :
    deliveredOf (fanOutLog send ws snapshot) =
      snapshot.filter (fun c => decide (c ≠ ws)) := by
  induction snapshot with
  | nil => rfl
  | cons c rest ih =>
    by_cases hc : c = ws
    · simp [fanOutLog, hc, List.filter_cons, ih]
    · simp [fanOutLog, deliveredOf, sendSuppressed, h c, hc,
        List.filter_cons, ih]
      simpa [deliveredOf] using ih

/-- Every delivered recipient was a member of the snapshot and is not the
sender. -/
theorem delivered_subset_snapshot (send : Conn → Except PyExn Unit)
    (ws : Conn) (snapshot : List Conn) (c : Conn)
    (h : c ∈ deliveredOf (fanOutLog send ws snapshot)) :
    c ∈ snapshot ∧ c ≠ ws := by
  have hsub : c ∈ attemptedOf (fanOutLog send ws snapshot) := by
    simp only [deliveredOf, attemptedOf] at h ⊢
    rcases List.mem_map.mp h with ⟨p, hp, hpc⟩
    exact List.mem_map.mpr ⟨p, List.mem_of_mem_filter hp, hpc⟩
  rw [attempted_fanOutLog] at hsub
  simpa using List.mem_filter.mp hsub

/-!
The relay connection handler (server.py lines 51..63):

    async def relay(websocket):
        clients.add(websocket)
        try:
            async for message in websocket:
                ... fan-out ...
        except (ConnectionClosed, ConnectionResetError, OSError):
            pass
        finally:
            clients.discard(websocket)

The inbound stream of a connection is modelled by the list of messages the
iteration yields before it ends, together with how it ends: normally (the
peer closed cleanly and the async iteration stopped) or by raising an
exception.  Messages are opaque; the send outcome may depend on the message,
so the send path takes the message as first argument.
-/

/-- Opaque message payload. -/
abbrev Msg := String

/-- How the async-for iteration over the inbound stream ends. -/
inductive LoopExit : Type
  | normal
  | raised (e : PyExn)
deriving DecidableEq, Repr

/-- The try block body (server.py lines 54..59): fan each inbound message
out over a snapshot of the clients set, then end as the stream ends.  An
exception raised by an iteration would propagate; the fan-out itself never
raises (fanOut_ok), so the block's outcome is decided by the stream exit. -/
def tryBody (reg : List Conn) (ws : Conn)
    (send : Msg → Conn → Except PyExn Unit) :
    List Msg → LoopExit → Except PyExn Unit
  | [], .normal => .ok ()
  | [], .raised e => .error e
  | m :: rest, exit =>
    match fanOut (send m) ws reg with
    | .ok _ => tryBody reg ws send rest exit
    | .error e => .error e

/-- The relay handler: register, run the message loop, catch exactly the
transport-closure exceptions (except clause, line 60..61), and deregister in
the finally (line 63) on every path.  Returns the clients set after the
handler and the handler's own outcome: ok when it returns normally, error e
when exception e escapes it into the per-connection serving task. -/
def relayHandler (reg : List Conn) (ws : Conn)
    (send : Msg → Conn → Except PyExn Unit) (msgs : List Msg)
    (exit : LoopExit) : List Conn × Except PyExn Unit :=
  let reg1 := pyAdd reg ws
  let body := tryBody reg1 ws send msgs exit
  let outcome : Except PyExn Unit :=
    match body with
    | .ok _ => .ok ()
    | .error e => if isTransportClosure e then .ok () else .error e
  (pyDiscard reg1 ws, outcome)

/-- The try block's outcome is decided by the stream exit: the fan-outs
never raise. -/
theorem tryBody_eq_exit (reg : List Conn) (ws : Conn)
    (send : Msg → Conn → Except PyExn Unit) (msgs : List Msg)
    (exit : LoopExit) :
    tryBody reg ws send msgs exit =
      match exit with
      | .normal => .ok ()
      | .raised e => .error e := by
  induction msgs with
  | nil => cases exit <;> rfl
  | cons m rest ih => simpa [tryBody, fanOut_ok] using ih

/-- On every exit path the handler removes the connection from the clients
set, and the registry effect is exactly registration followed by
deregistration. -/
theorem relayHandler_registry (reg : List Conn) (ws : Conn)
    (send : Msg → Conn → Except PyExn Unit) (msgs : List Msg)
    (exit : LoopExit) :
    (relayHandler reg ws send msgs exit).1 = pyDiscard (pyAdd reg ws) ws ∧
      ws ∉ (relayHandler reg ws send msgs exit).1 := by
  refine ⟨rfl, ?_⟩
  exact not_mem_pyDiscard_self _ _

/-- The handler's outcome, by classification of the loop exit. -/
theorem relayHandler_outcome (reg : List Conn) (ws : Conn)
    (send : Msg → Conn → Except PyExn Unit) (msgs : List Msg)
    (exit : LoopExit) :
    (relayHandler reg ws send msgs exit).2 =
      match exit with
      | .normal => .ok ()
      | .raised e => if isTransportClosure e then .ok () else .error e := by
  show (match tryBody (pyAdd reg ws) ws send msgs exit with
    | .ok _ => (Except.ok () : Except PyExn Unit)
    | .error e => if isTransportClosure e then .ok () else .error e) = _
  rw [tryBody_eq_exit]
  cases exit <;> simp

/-!
Registry traces.  The clients set (server.py line 11) is mutated only by
clients.add on handler entry (line 52) and clients.discard in the handler's
finally (line 63).  A trace is the interleaved sequence of these mutations
across all connection handlers; the registry state is the fold of the trace
over the empty set.
-/

/-- A registry mutation event. -/
inductive Event : Type
  | register (c : Conn)
  | deregister (c : Conn)
deriving DecidableEq, Repr

/-- Apply one mutation to the clients set. -/
def applyEvent (reg : List Conn) : Event → List Conn
  | .register c => pyAdd reg c
  | .deregister c => pyDiscard reg c

/-- The registry state after a trace of mutations, starting from the empty
set the module initializes clients to. -/
def runTrace (tr : List Event) : List Conn :=
  tr.foldl applyEvent []

/-- The last event of a trace that concerns connection c: some true when it
is a registration, some false when a deregistration, none when no event of
the trace concerns c. -/
def lastAbout (c : Conn) : List Event → Option Bool
  | [] => none
  | e :: rest =>
    match lastAbout c rest with
    | some b => some b
    | none =>
      match e with
      | .register d => if d = c then some true else none
      | .deregister d => if d = c then some false else none

/-- The registry mutations one relay handler performs for its connection:
clients.add on entry and clients.discard in the finally, on every exit
path.  This is the event footprint of relayHandler, whose registry effect
is pyDiscard (pyAdd reg ws) ws (relayHandler_registry). -/
def relayEvents (ws : Conn) (_exit : LoopExit) : List Event :=
  [Event.register ws, Event.deregister ws]

/-- Well-formed traces: a websocket object is a fresh identity per accepted
session, so an identity registers at most once, deregisters at most once,
and never deregisters before it has registered. -/
def NoDeregBeforeReg (c : Conn) : List Event → Prop
  | [] => True
  | .register d :: rest => if d = c then True else NoDeregBeforeReg c rest
  | .deregister d :: rest => d ≠ c ∧ NoDeregBeforeReg c rest

def WellFormed (tr : List Event) : Prop :=
  ∀ c : Conn, tr.count (Event.register c) ≤ 1 ∧
    tr.count (Event.deregister c) ≤ 1 ∧ NoDeregBeforeReg c tr

instance (c : Conn) (tr : List Event) : Decidable (NoDeregBeforeReg c tr) := by
  induction tr with
  | nil => exact .isTrue trivial
  | cons e rest ih =>
    cases e with
    | register d =>
      by_cases hd : d = c
      · exact .isTrue (by simp [NoDeregBeforeReg, hd])
      · cases ih with
        | isTrue h => exact .isTrue (by simp [NoDeregBeforeReg, hd, h])
        | isFalse h => exact .isFalse (by simp [NoDeregBeforeReg, hd, h])
    | deregister d => exact @instDecidableAnd _ _ inferInstance ih

instance (tr : List Event) : Decidable (WellFormed tr) := by
  unfold WellFormed
  have : (∀ c ∈ (tr.map fun e => match e with
      | .register c => c
      | .deregister c => c), tr.count (Event.register c) ≤ 1 ∧
        tr.count (Event.deregister c) ≤ 1 ∧ NoDeregBeforeReg c tr) →
      ∀ c : Conn, tr.count (Event.register c) ≤ 1 ∧
        tr.count (Event.deregister c) ≤ 1 ∧ NoDeregBeforeReg c tr := by
    intro h c
    by_cases hc : c ∈ tr.map fun e => match e with
      | .register c => c
      | .deregister c => c
    · exact h c hc
    · have hreg : Event.register c ∉ tr := fun hm => hc (by
        refine List.mem_map.mpr ⟨Event.register c, hm, rfl⟩)
      have hder : Event.deregister c ∉ tr := fun hm => hc (by
        refine List.mem_map.mpr ⟨Event.deregister c, hm, rfl⟩)
      refine ⟨by simp [List.count_eq_zero_of_not_mem hreg],
        by simp [List.count_eq_zero_of_not_mem hder], ?_⟩
      clear h
      induction tr with
      | nil => trivial
      | cons e rest ih =>
        cases e with
        | register d =>
          have hd : d ≠ c := fun h => by
            simp [h] at hreg
          simp only [NoDeregBeforeReg, if_neg hd]
          exact ih (fun hm => hc (by
              rcases List.mem_map.mp hm with ⟨x, hx, hxe⟩
              exact List.mem_map.mpr ⟨x, List.mem_cons_of_mem _ hx, hxe⟩))
            (fun hm => hreg (List.mem_cons_of_mem _ hm))
            (fun hm => hder (List.mem_cons_of_mem _ hm))
        | deregister d =>
          have hd : d ≠ c := fun h => by
            simp [h] at hder
          refine ⟨hd, ?_⟩
          exact ih (fun hm => hc (by
              rcases List.mem_map.mp hm with ⟨x, hx, hxe⟩
              exact List.mem_map.mpr ⟨x, List.mem_cons_of_mem _ hx, hxe⟩))
            (fun hm => hreg (List.mem_cons_of_mem _ hm))
            (fun hm => hder (List.mem_cons_of_mem _ hm))
  exact decidable_of_iff _ ⟨this, fun h c _ => h c⟩

theorem nodup_runTrace_aux (tr : List Event) (init : List Conn)
    (h : init.Nodup) : (tr.foldl applyEvent init).Nodup := by
  induction tr generalizing init with
  | nil => simpa using h
  | cons e rest ih =>
    cases e with
    | register c => exact ih _ (nodup_pyAdd _ _ h)
    | deregister c => exact ih _ (nodup_pyDiscard _ _ h)

/-- The clients set never holds a duplicate identity. -/
theorem nodup_runTrace (tr : List Event) : (runTrace tr).Nodup :=
  nodup_runTrace_aux tr [] List.nodup_nil

theorem mem_foldl_applyEvent (tr : List Event) (init : List Conn)
    (c : Conn) :
    c ∈ tr.foldl applyEvent init ↔
      lastAbout c tr = some true ∨
        (lastAbout c tr = none ∧ c ∈ init) := by
  induction tr generalizing init with
  | nil => simp [lastAbout]
  | cons e rest ih =>
    rw [List.foldl_cons, ih]
    rcases hlast : lastAbout c rest with _ | b
    · cases e with
      | register d =>
        by_cases hd : d = c
        · subst hd
          simp [lastAbout, hlast, mem_pyAdd, applyEvent]
        · have hcd : ¬ c = d := fun h => hd h.symm
          simp [lastAbout, hlast, hd, applyEvent, mem_pyAdd, hcd]
      | deregister d =>
        by_cases hd : d = c
        · subst hd
          simp [lastAbout, hlast, applyEvent, mem_pyDiscard]
        · have hcd : ¬ c = d := fun h => hd h.symm
          simp [lastAbout, hlast, hd, applyEvent, mem_pyDiscard, hcd]
    · cases b <;> simp [lastAbout, hlast]

theorem lastAbout_eq_none (c : Conn) (tr : List Event)
    (hreg : Event.register c ∉ tr) (hder : Event.deregister c ∉ tr) :
    lastAbout c tr = none := by
  induction tr with
  | nil => rfl
  | cons e rest ih =>
    have hreg' : Event.register c ∉ rest := fun h => hreg (.tail _ h)
    have hder' : Event.deregister c ∉ rest := fun h => hder (.tail _ h)
    cases e with
    | register d =>
      have hd : ¬ d = c := fun h => hreg (h ▸ .head _)
      simp [lastAbout, ih hreg' hder', hd]
    | deregister d =>
      have hd : ¬ d = c := fun h => hder (h ▸ .head _)
      simp [lastAbout, ih hreg' hder', hd]

theorem lastAbout_eq_true (c : Conn) (tr : List Event)
    (hreg : Event.register c ∈ tr) (hder : Event.deregister c ∉ tr) :
    lastAbout c tr = some true := by
  induction tr with
  | nil => cases hreg
  | cons e rest ih =>
    have hder' : Event.deregister c ∉ rest := fun h => hder (.tail _ h)
    by_cases hmem : Event.register c ∈ rest
    · simp [lastAbout, ih hmem hder']
    · have he : e = Event.register c := by
        cases hreg with
        | head => rfl
        | tail _ h => exact absurd h hmem
      subst he
      simp [lastAbout, lastAbout_eq_none c rest hmem hder']

theorem lastAbout_eq_false (c : Conn) (tr : List Event)
    (hreg : Event.register c ∉ tr) (hder : Event.deregister c ∈ tr) :
    lastAbout c tr = some false := by
  induction tr with
  | nil => cases hder
  | cons e rest ih =>
    have hreg' : Event.register c ∉ rest := fun h => hreg (.tail _ h)
    by_cases hmem : Event.deregister c ∈ rest
    · simp [lastAbout, ih hreg' hmem]
    · have he : e = Event.deregister c := by
        cases hder with
        | head => rfl
        | tail _ h => exact absurd h hmem
      subst he
      simp [lastAbout, lastAbout_eq_none c rest hreg' hmem]

theorem lastAbout_of_dereg (c : Conn) (tr : List Event)
    (hnd : NoDeregBeforeReg c tr)
    (hcount : tr.count (Event.register c) ≤ 1)
    (hder : Event.deregister c ∈ tr) :
    lastAbout c tr = some false := by
  induction tr with
  | nil => cases hder
  | cons e rest ih =>
    cases e with
    | register d =>
      by_cases hd : d = c
      · subst hd
        have hcnt : rest.count (Event.register d) = 0 := by
          have := hcount
          rw [List.count_cons_self] at this
          omega
        have hreg' : Event.register d ∉ rest :=
          List.count_eq_zero.mp hcnt
        have hder' : Event.deregister d ∈ rest := by
          cases hder with
          | tail _ h => exact h
        simp [lastAbout, lastAbout_eq_false d rest hreg' hder']
      · have hnd' : NoDeregBeforeReg c rest := by
          simpa [NoDeregBeforeReg, hd] using hnd
        have hcount' : rest.count (Event.register c) ≤ 1 := by
          have h := hcount
          rw [List.count_cons] at h
          omega
        have hder' : Event.deregister c ∈ rest := by
          cases hder with
          | tail _ h => exact h
        simp [lastAbout, ih hnd' hcount' hder']
    | deregister d =>
      rcases hnd with ⟨hd, hnd'⟩
      by_cases hmem : Event.deregister c ∈ rest
      · have hcount' : rest.count (Event.register c) ≤ 1 := by
          have h := hcount
          rw [List.count_cons] at h
          omega
        simp [lastAbout, ih hnd' hcount' hmem]
      · have he : Event.deregister d = Event.deregister c := by
          cases hder with
          | head => rfl
          | tail _ h => exact absurd h hmem
        simp at he
        exact absurd he hd

/-- Membership of the clients set after a well-formed trace is exactly:
registered, and not yet deregistered. -/
theorem mem_runTrace_iff (tr : List Event) (c : Conn)
    (hwf : WellFormed tr) :
    c ∈ runTrace tr ↔
      Event.register c ∈ tr ∧ Event.deregister c ∉ tr := by
  rcases hwf c with ⟨hrc, _, hnd⟩
  rw [runTrace, mem_foldl_applyEvent]
  simp only [List.not_mem_nil, and_false, or_false]
  constructor
  · intro hlast
    by_cases hder : Event.deregister c ∈ tr
    · rw [lastAbout_of_dereg c tr hnd hrc hder] at hlast
      cases hlast
    · refine ⟨?_, hder⟩
      by_cases hreg : Event.register c ∈ tr
      · exact hreg
      · rw [lastAbout_eq_none c tr hreg hder] at hlast
        cases hlast
  · rintro ⟨hreg, hder⟩
    exact lastAbout_eq_true c tr hreg hder

/-!
Health probe listener (server.py lines 16..42).  HealthHandler.do_GET
writes a JSON body and a status code depending only on the request path;
the timestamp field is datetime.now(timezone.utc).isoformat(), modelled as
an input string computed fresh per request.  JSON values are modelled
structurally as ordered key-value pairs.
-/

/-- JSON values as the health handler produces them. -/
inductive JsonVal : Type
  | bool (b : Bool)
  | str (s : String)
deriving DecidableEq, Repr

/-- Module constant VERSION (server.py line 12). -/
def VERSION : String := "1.1.0"

/-- Module constant HEALTH_PORT (server.py line 13). -/
def HEALTH_PORT : Nat := 8766

/-- The 200 payload of the health route (server.py lines 29..36). -/
def healthPayload (ts : String) : List (String × JsonVal) :=
  [("ok", .bool true),
   ("service", .str "webrtc-signaling-relay"),
   ("ts", .str ts),
   ("version", .str VERSION),
   ("ws", .str "ws://0.0.0.0:8765"),
   ("http", .str ("http://0.0.0.0:" ++ toString HEALTH_PORT ++ "/health"))]

/-- The 404 payload of every other route (server.py line 39). -/
def notFoundPayload : List (String × JsonVal) :=
  [("ok", .bool false), ("error", .str "not_found")]

/-- HealthHandler.do_GET (server.py lines 25..39): status code and JSON
body as a function of the request path and of the freshly computed
isoformat timestamp. -/
def doGET (path : String) (ts : String) : Nat × List (String × JsonVal) :=
  if path = "/health" then (200, healthPayload ts)
  else (404, notFoundPayload)

/-- Field lookup in an ordered JSON object. -/
def jsonField (body : List (String × JsonVal)) (key : String) :
    Option JsonVal :=
  (body.find? (fun kv => kv.1 == key)).map Prod.snd

/-!
Process supervisor (server.py lines 66..79).  main() starts the health
listener on a daemon thread and only then opens the websocket accept loop
on the main event loop.  An execution is an interleaving of the two
threads' action sequences; the thread library guarantees only that the
spawned thread's actions happen after the spawn, so the health socket may
become ready before or after the accept loop opens, depending on
scheduling.
-/

/-- Observable supervisor actions.  spawnHealth is threading.Thread.start
(line 68); wsAccepting is websockets.serve opening the accept loop (lines
70..77); healthReady is the spawned thread binding and serving the health
socket (start_health_server, lines 45..48). -/
inductive Act : Type
  | spawnHealth
  | wsAccepting
  | healthReady
deriving DecidableEq, Repr

/-- The main task's program order in main(): the thread start precedes the
opening of the websocket accept loop. -/
def mainProg : List Act := [Act.spawnHealth, Act.wsAccepting]

/-- The health thread's program order: bind and serve the health socket. -/
def healthProg : List Act := [Act.healthReady]

/-- Interleaving of two sequences, preserving each one's order. -/
inductive Interleaving : List Act → List Act → List Act → Prop
  | nil : Interleaving [] [] []
  | left {a : Act} {xs ys zs : List Act} :
      Interleaving xs ys zs → Interleaving (a :: xs) ys (a :: zs)
  | right {a : Act} {xs ys zs : List Act} :
      Interleaving xs ys zs → Interleaving xs (a :: ys) (a :: zs)

/-- a occurs before b in the trace (both occur exactly once in our
three-action traces). -/
def precedes (a b : Act) (tr : List Act) : Prop :=
  tr.indexOf a < tr.indexOf b

instance (a b : Act) (tr : List Act) : Decidable (precedes a b tr) := by
  unfold precedes; infer_instance

/-- The executions of main(): any interleaving of the two threads' program
orders in which the spawned thread's action comes after the spawn. -/
def ValidExec (tr : List Act) : Prop :=
  Interleaving mainProg healthProg tr ∧
    precedes Act.spawnHealth Act.healthReady tr

/-- The valid executions, enumerated. -/
theorem validExec_cases (tr : List Act) (h : ValidExec tr) :
    tr = [Act.spawnHealth, Act.wsAccepting, Act.healthReady] ∨
      tr = [Act.spawnHealth, Act.healthReady, Act.wsAccepting] := by
  rcases h with ⟨hi, hp⟩
  rw [mainProg, healthProg] at hi
  cases hi with
  | left h1 =>
    cases h1 with
    | left h2 =>
      cases h2 with
      | right h3 =>
        cases h3
        exact Or.inl rfl
    | right h2 =>
      cases h2 with
      | left h3 =>
        cases h3
        exact Or.inr rfl
  | right h1 =>
    cases h1 with
    | left h2 =>
      cases h2 with
      | left h3 =>
        cases h3
        exact absurd hp (by decide)

/-!
Timing of the fan-out loop (server.py lines 55..59).  The source awaits
client.send(message) with no timeout (line 59 is a bare await inside the
suppress block; asyncio.wait_for or an equivalent bound is absent), so the
handler task suspends for however long the recipient's send takes.  The
duration of a recipient's send is modelled by a function dur into ticks; the
loop is sequential, so the attempt to a later recipient starts only after
the awaits on all earlier recipients have finished.
-/

/-- Ticks the handler spends awaiting the send to recipient c.  The source
applies no bound, so this is the recipient's full send duration. -/
def sendAwaitTicks (dur : Conn → Nat) (c : Conn) : Nat := dur c

/-- Ticks that elapse in the fan-out loop before the delivery attempt to
target begins: the sum of the awaits on the recipients attempted earlier in
the snapshot (the sender is skipped and costs nothing). -/
def delayUntil (dur : Conn → Nat) (ws : Conn) :
    List Conn → Conn → Nat
  | [], _ => 0
  | c :: rest, target =>
    if c = target then 0
    else (if c = ws then 0 else sendAwaitTicks dur c) +
      delayUntil dur ws rest target

/-!
LAN-address discovery helper (src/server/app/main.py lines 109..128).
_discover_local_ips performs OS queries, so the discovered addresses are an
input of the model; everything after that point is pure string processing,
embedded verbatim.  Python's sorted() over strings is lexicographic by code
point, modelled by mergeSort with the string order; a Python set comes out
of sorted() as a sorted duplicate-free list, modelled by dedup then sort.
-/

/-- Python str.startswith, as a structural test on the character lists. -/
def charsStart : List Char → List Char → Bool
  | _, [] => true
  | [], _ :: _ => false
  | c :: cs, p :: ps => decide (c = p) && charsStart cs ps

def pyStartsWith (s pre : String) : Bool :=
  charsStart s.data pre.data

/-- Python string comparison: lexicographic by code point. -/
def charsLe : List Char → List Char → Bool
  | [], _ => true
  | _ :: _, [] => false
  | a :: as, b :: bs =>
    if a.toNat < b.toNat then true
    else if b.toNat < a.toNat then false
    else charsLe as bs

def pyStrLe (a b : String) : Bool := charsLe a.data b.data

/-- Insertion into the output of sortStrs, keeping ascending order. -/
def insertStr (x : String) : List String → List String
  | [] => [x]
  | y :: ys => if pyStrLe x y then x :: y :: ys else y :: insertStr x ys

/-- Python sorted() on strings: stable insertion sort in ascending
lexicographic order. -/
def sortStrs : List String → List String
  | [] => []
  | x :: xs => insertStr x (sortStrs xs)

/-- Python int() applied to a dotted-quad component, as _is_rfc1918_ip uses
it: digit strings parse to their value, anything that raises ValueError
(the empty string, non-digits) yields none.  Python additionally strips
whitespace, accepts a sign and underscores between digits; none of those
forms can make the 16..31 range test true that the caller applies, and they
are modelled as none. -/
def charsNat? (l : List Char) : Option Nat :=
  if l ≠ [] ∧ ∀ c ∈ l, 48 ≤ c.toNat ∧ c.toNat ≤ 57 then
    some (l.foldl (fun n c => n * 10 + (c.toNat - 48)) 0)
  else none

def pyIntOfString (s : String) : Option Nat := charsNat? s.data

/-- Python str.split on a dot separator. -/
def splitOnDot : List Char → List (List Char)
  | [] => [[]]
  | c :: rest =>
    if c = '.' then [] :: splitOnDot rest
    else
      match splitOnDot rest with
      | [] => [[c]]
      | h :: t => (c :: h) :: t

/-- The membership filter of _lan_ip_candidates (main.py line 122): keep
non-empty addresses outside 127.* and 169.254.*. -/
def lanFilter (ip : String) : Bool :=
  decide (ip ≠ "") && !pyStartsWith ip "127." && !pyStartsWith ip "169.254."

/-- _is_rfc1918_ip (main.py lines 109..117). -/
def isRfc1918Ip (ip : String) : Bool :=
  if pyStartsWith ip "10." || pyStartsWith ip "192.168." then true
  else if !pyStartsWith ip "172." then false
  else
    match (splitOnDot ip.data)[1]? with
    | none => false
    | some second =>
      match charsNat? second with
      | none => false
      | some n => decide (16 ≤ n) && decide (n ≤ 31)

/-- Python sorted() applied to a set built from a list: the distinct
elements in ascending lexicographic order. -/
def pySortedSet (l : List String) : List String :=
  sortStrs l.dedup

/-- _lan_ip_candidates (main.py lines 120..128), with the result of
_discover_local_ips as input. -/
def lanIpCandidates (discovered : List String) : List String :=
  let ips := pySortedSet (discovered.filter lanFilter)
  if ips.isEmpty then ["127.0.0.1"]
  else
    let preferred := sortStrs (ips.filter isRfc1918Ip)
    let rest := ips.filter (fun ip => decide (ip ∉ preferred))
    preferred ++ rest

theorem mem_insertStr (x a : String) (l : List String) :
    x ∈ insertStr a l ↔ x = a ∨ x ∈ l := by
  induction l with
  | nil => simp [insertStr]
  | cons y ys ih =>
    by_cases h : pyStrLe a y = true
    · simp [insertStr, h]
    · simp only [insertStr, if_neg h, List.mem_cons, ih]
      tauto

theorem mem_sortStrs (x : String) (l : List String) :
    x ∈ sortStrs l ↔ x ∈ l := by
  induction l with
  | nil => simp [sortStrs]
  | cons y ys ih => simp [sortStrs, mem_insertStr, ih]

theorem mem_pySortedSet (l : List String) (x : String) :
    x ∈ pySortedSet l ↔ x ∈ l := by
  unfold pySortedSet
  rw [mem_sortStrs, List.mem_dedup]

theorem pySortedSet_isEmpty (l : List String) :
    (pySortedSet l).isEmpty = true ↔ l = [] := by
  rcases h : pySortedSet l with _ | ⟨a, rest⟩
  · simp only [List.isEmpty_nil, true_iff]
    rcases l with _ | ⟨b, l'⟩
    · rfl
    · have : b ∈ pySortedSet (b :: l') := by
        rw [mem_pySortedSet]; exact .head _
      rw [h] at this
      cases this
  · simp only [List.isEmpty_cons]
    constructor
    · intro hfalse; cases hfalse
    intro hl
    subst hl
    have : a ∈ ([] : List String) := by
      rw [← mem_pySortedSet, h]; exact .head _
    cases this

/-!
Claim theorems.
-/

/-- C1: a broadcast by peer ws over the snapshot of the clients set taken
at send time delivers the message (when the sends complete) to exactly the
members of that snapshot other than ws; ws never receives its own message,
and a peer absent from the snapshot — in particular one that registers
after the snapshot was taken — does not receive it. -/
theorem c1_broadcast_exact_delivery (snapshot : List Conn) (ws : Conn)
    (send : Conn → Except PyExn Unit) (h : ∀ c, send c = .ok ()) :
    deliveredOf (fanOutLog send ws snapshot) =
        snapshot.filter (fun c => decide (c ≠ ws)) ∧
      ws ∉ deliveredOf (fanOutLog send ws snapshot) ∧
      ∀ late : Conn, late ∉ snapshot →
        late ∉ deliveredOf (fanOutLog send ws snapshot) := by
  refine ⟨delivered_fanOutLog_of_all_ok send ws snapshot h, ?_, ?_⟩
  · intro hmem
    exact (delivered_subset_snapshot send ws snapshot ws hmem).2 rfl
  · intro late hlate hmem
    exact hlate (delivered_subset_snapshot send ws snapshot late hmem).1

theorem c1_broadcast_exact_delivery_witness :
    (∀ c : Conn, (fun _ : Conn => (Except.ok () : Except PyExn Unit)) c =
      .ok ()) ∧
    deliveredOf (fanOutLog (fun _ => Except.ok ()) 0 [0, 1, 2]) =
        [0, 1, 2].filter (fun c => decide (c ≠ 0)) ∧
      0 ∉ deliveredOf (fanOutLog (fun _ => Except.ok ()) 0 [0, 1, 2]) ∧
      ∀ late : Conn, late ∉ [0, 1, 2] →
        late ∉ deliveredOf (fanOutLog (fun _ => Except.ok ()) 0 [0, 1, 2]) :=
  ⟨fun _ => rfl,
    c1_broadcast_exact_delivery [0, 1, 2] 0 (fun _ => .ok ()) fun _ => rfl⟩

/-- C2: when the delivery to one recipient fails (its send raises), the
fan-out still attempts delivery to every member of the snapshot other than
the sender, and the loop returns ok — no exception from a failed delivery
propagates into the sender's connection handler. -/
theorem c2_failure_isolated (snapshot : List Conn) (ws c0 : Conn)
    (send : Conn → Except PyExn Unit) (e : PyExn)
    (_hfail : send c0 = .error e) :
    attemptedOf (fanOutLog send ws snapshot) =
        snapshot.filter (fun c => decide (c ≠ ws)) ∧
      fanOut send ws snapshot = .ok (fanOutLog send ws snapshot) :=
  ⟨attempted_fanOutLog send ws snapshot, fanOut_ok send ws snapshot⟩

theorem c2_failure_isolated_witness :
    (fun c : Conn => if c = 1 then Except.error (PyExn.other "RuntimeError")
        else Except.ok ()) 1 = .error (PyExn.other "RuntimeError") ∧
    attemptedOf (fanOutLog
        (fun c : Conn => if c = 1 then .error (PyExn.other "RuntimeError")
          else .ok ()) 0 [0, 1, 2]) =
        [0, 1, 2].filter (fun c => decide (c ≠ 0)) ∧
      fanOut (fun c : Conn => if c = 1 then
          .error (PyExn.other "RuntimeError") else .ok ()) 0 [0, 1, 2] =
        .ok (fanOutLog (fun c : Conn => if c = 1 then
          .error (PyExn.other "RuntimeError") else .ok ()) 0 [0, 1, 2]) :=
  ⟨rfl, c2_failure_isolated [0, 1, 2] 0 1
    (fun c => if c = 1 then .error (PyExn.other "RuntimeError")
      else .ok ()) (PyExn.other "RuntimeError") rfl⟩

/-- C3: the claim asserts a per-recipient timeout which the source does not
have — server.py line 59 awaits client.send(message) bare, so the await
lasts the recipient's full send duration whatever it is.  For every
proposed bound T there is a recipient duration assignment under which the
await on recipient 1 exceeds T, and the delivery attempt to the next
recipient of the same snapshot is delayed beyond T. -/
theorem c3_send_await_unbounded (T : Nat) :
    sendAwaitTicks (fun _ => T + 1) 1 = T + 1 ∧
      delayUntil (fun _ => T + 1) 0 [1, 2] 2 = T + 1 ∧
      T < delayUntil (fun _ => T + 1) 0 [1, 2] 2 := by
  refine ⟨rfl, ?_, ?_⟩ <;> simp [delayUntil, sendAwaitTicks]

/-- C4: the except clause of relay (server.py line 60) catches exactly the
transport-closure exceptions — ConnectionClosed, ConnectionResetError and
OSError — and for those the handler deregisters and returns normally,
taking no other action; any other exception escaping the message loop is
not swallowed: the handler re-raises it into its own per-connection serving
task (where the server wrapper logs it), again after deregistration, and no
other connection's state is touched. -/
theorem c4_error_classification (reg : List Conn) (ws : Conn)
    (send : Msg → Conn → Except PyExn Unit) (msgs : List Msg) (e : PyExn) :
    (isTransportClosure e = true →
        relayHandler reg ws send msgs (.raised e) =
          (pyDiscard (pyAdd reg ws) ws, .ok ())) ∧
      (isTransportClosure e = false →
        relayHandler reg ws send msgs (.raised e) =
          (pyDiscard (pyAdd reg ws) ws, .error e)) := by
  have hreg := (relayHandler_registry reg ws send msgs (.raised e)).1
  have hout := relayHandler_outcome reg ws send msgs (.raised e)
  constructor
  · intro htc
    have : (relayHandler reg ws send msgs (.raised e)).2 = .ok () := by
      rw [hout]; simp [htc]
    exact Prod.ext hreg this
  · intro htc
    have : (relayHandler reg ws send msgs (.raised e)).2 = .error e := by
      rw [hout]; simp [htc]
    exact Prod.ext hreg this

theorem c4_error_classification_witness :
    isTransportClosure (PyExn.other "ValueError") = false ∧
      relayHandler [7] 0 (fun _ _ => .ok ()) []
          (.raised (PyExn.other "ValueError")) =
        (pyDiscard (pyAdd [7] 0) 0, .error (PyExn.other "ValueError")) :=
  ⟨rfl, (c4_error_classification [7] 0 (fun _ _ => .ok ()) []
    (PyExn.other "ValueError")).2 rfl⟩

theorem length_pyDiscard_of_mem (reg : List Conn) (c : Conn)
    (hnd : reg.Nodup) (hc : c ∈ reg) :
    (pyDiscard reg c).length + 1 = reg.length := by
  induction reg with
  | nil => cases hc
  | cons a rest ih =>
    rcases List.nodup_cons.mp hnd with ⟨hna, hnrest⟩
    by_cases ha : a = c
    · subst ha
      have hnotc : a ∉ rest := hna
      have hfil : rest.filter (fun d => decide (d ≠ a)) = rest :=
        List.filter_eq_self.mpr fun x hx =>
          decide_eq_true fun hxa => hnotc (hxa ▸ hx)
      have hdrop : pyDiscard (a :: rest) a = rest := by
        simp [pyDiscard, List.filter_cons]
        exact fun x hx hxa => hnotc (hxa ▸ hx)
      rw [hdrop, List.length_cons]
    · have hcrest : c ∈ rest := by
        cases hc with
        | head => exact absurd rfl ha
        | tail _ h => exact h
      have hkeep : pyDiscard (a :: rest) c = a :: pyDiscard rest c := by
        simp [pyDiscard, List.filter_cons, ha]
      rw [hkeep, List.length_cons, List.length_cons]
      have := ih hnrest hcrest
      omega

/-- C5: deregistration is idempotent — clients.discard never raises (it is
total), removes the connection when present, removing exactly one member,
and a second discard of the same connection is a no-op. -/
theorem c5_deregister_idempotent (reg : List Conn) (c : Conn) :
    pyDiscard (pyDiscard reg c) c = pyDiscard reg c ∧
      c ∉ pyDiscard reg c ∧
      (reg.Nodup → c ∈ reg →
        (pyDiscard reg c).length + 1 = reg.length) := by
  refine ⟨?_, ?_, ?_⟩
  · unfold pyDiscard
    rw [List.filter_filter]
    congr 1
    funext d
    exact Bool.and_self _
  · exact not_mem_pyDiscard_self reg c
  · exact length_pyDiscard_of_mem reg c

theorem c5_deregister_idempotent_witness :
    ([5, 3] : List Conn).Nodup ∧ 3 ∈ ([5, 3] : List Conn) ∧
      pyDiscard (pyDiscard [5, 3] 3) 3 = pyDiscard [5, 3] 3 ∧
      3 ∉ pyDiscard [5, 3] 3 ∧
      (pyDiscard [5, 3] 3).length + 1 = ([5, 3] : List Conn).length :=
  ⟨by decide, by decide,
    (c5_deregister_idempotent [5, 3] 3).1,
    (c5_deregister_idempotent [5, 3] 3).2.1,
    (c5_deregister_idempotent [5, 3] 3).2.2 (by decide) (by decide)⟩

/-- C6: HealthHandler.do_GET answers the health path with status 200 and a
JSON body whose fields are the liveness flag true, the service identity,
the isoformat timestamp computed for the request, the version string, and
the ws and http endpoint addresses; every other path gets status 404 with
exactly the body of ok false and error not_found. -/
theorem c6_health_routes (path ts : String) :
    doGET "/health" ts = (200, healthPayload ts) ∧
      jsonField (healthPayload ts) "ok" = some (.bool true) ∧
      jsonField (healthPayload ts) "service" =
        some (.str "webrtc-signaling-relay") ∧
      jsonField (healthPayload ts) "ts" = some (.str ts) ∧
      jsonField (healthPayload ts) "version" = some (.str "1.1.0") ∧
      jsonField (healthPayload ts) "ws" = some (.str "ws://0.0.0.0:8765") ∧
      jsonField (healthPayload ts) "http" =
        some (.str "http://0.0.0.0:8766/health") ∧
      (path ≠ "/health" → doGET path ts = (404, notFoundPayload)) := by
  refine ⟨rfl, rfl, rfl, rfl, rfl, rfl, rfl, ?_⟩
  intro hne
  unfold doGET
  rw [if_neg hne]

theorem c6_health_routes_witness :
    ("/metrics" : String) ≠ "/health" ∧
      doGET "/metrics" "2026-10-12T00:00:00+00:00" =
        (404, notFoundPayload) :=
  ⟨by decide,
    (c6_health_routes "/metrics"
      "2026-10-12T00:00:00+00:00").2.2.2.2.2.2.2 (by decide)⟩

/-- C7: after any well-formed trace of registrations and deregistrations
(each session identity registers at most once, deregisters at most once,
and never deregisters before registering), the clients set holds no
duplicate identity, and its membership is exactly the identities that have
registered and not yet deregistered; moreover a relay handler performs
exactly one deregistration of its connection, on every exit path. -/
theorem c7_registry_invariant (tr : List Event) (c ws : Conn)
    (exit : LoopExit) (hwf : WellFormed tr) :
    (runTrace tr).Nodup ∧
      (c ∈ runTrace tr ↔
        Event.register c ∈ tr ∧ Event.deregister c ∉ tr) ∧
      (relayEvents ws exit).count (Event.deregister ws) = 1 := by
  refine ⟨nodup_runTrace tr, mem_runTrace_iff tr c hwf, ?_⟩
  simp [relayEvents, List.count_cons]

theorem c7_registry_invariant_witness :
    WellFormed [Event.register 1, Event.deregister 1, Event.register 2] ∧
      ((runTrace [Event.register 1, Event.deregister 1,
          Event.register 2]).Nodup ∧
        (1 ∈ runTrace [Event.register 1, Event.deregister 1,
            Event.register 2] ↔
          Event.register 1 ∈ [Event.register 1, Event.deregister 1,
              Event.register 2] ∧
            Event.deregister 1 ∉ [Event.register 1, Event.deregister 1,
              Event.register 2]) ∧
        (relayEvents 1 .normal).count (Event.deregister 1) = 1) :=
  ⟨by decide,
    c7_registry_invariant [Event.register 1, Event.deregister 1,
      Event.register 2] 1 1 .normal (by decide)⟩

/-- C8 counterexample: in the execution where the scheduler runs the main
task through to the accept loop before the spawned health thread has bound
its socket, the message plane is accepting while the health listener is not
yet running, so the claim that the health listener is answering probes
before the relay accepts in every execution is false. -/
theorem c8_health_ready_first_counterexample :
    (ValidExec [Act.spawnHealth, Act.wsAccepting, Act.healthReady] ∧
      ¬ precedes Act.healthReady Act.wsAccepting
          [Act.spawnHealth, Act.wsAccepting, Act.healthReady]) ∧
      ¬ (∀ tr : List Act, ValidExec tr →
          precedes Act.healthReady Act.wsAccepting tr) := by
  have hexec : ValidExec [Act.spawnHealth, Act.wsAccepting,
      Act.healthReady] := by
    refine ⟨?_, by decide⟩
    show Interleaving [Act.spawnHealth, Act.wsAccepting] [Act.healthReady] _
    exact .left (.left (.right .nil))
  refine ⟨⟨hexec, by decide⟩, fun hall => ?_⟩
  exact absurd (hall _ hexec) (by decide)

/-- C8 amended: main() starts the Health Probe Listener on its own thread
strictly before opening the relay accept loop — thread start precedes the
accept loop in program order, hence in every execution — but whether the
spawned thread has bound the health socket before the first connection is
accepted depends on scheduling and is not guaranteed. -/
theorem c8_start_order (tr : List Act) (h : ValidExec tr) :
    precedes Act.spawnHealth Act.wsAccepting tr := by
  rcases validExec_cases tr h with rfl | rfl <;> decide

theorem c8_start_order_witness :
    ValidExec [Act.spawnHealth, Act.healthReady, Act.wsAccepting] ∧
      precedes Act.spawnHealth Act.wsAccepting
        [Act.spawnHealth, Act.healthReady, Act.wsAccepting] := by
  have hexec : ValidExec [Act.spawnHealth, Act.healthReady,
      Act.wsAccepting] := by
    refine ⟨?_, by decide⟩
    show Interleaving [Act.spawnHealth, Act.wsAccepting] [Act.healthReady] _
    exact .left (.right (.left .nil))
  exact ⟨hexec, c8_start_order _ hexec⟩

/-- C9: on every way the relay handler can end — the inbound stream
finishing normally, a caught transport-closure exception, or any other
exception — the finally block removes the connection from the clients set
before the handler exits, and the resulting registry is exactly the one in
which this connection was registered and then deregistered. -/
theorem c9_deregister_on_every_exit (reg : List Conn) (ws : Conn)
    (send : Msg → Conn → Except PyExn Unit) (msgs : List Msg)
    (exit : LoopExit) :
    ws ∉ (relayHandler reg ws send msgs exit).1 ∧
      (relayHandler reg ws send msgs exit).1 =
        pyDiscard (pyAdd reg ws) ws :=
  ⟨(relayHandler_registry reg ws send msgs exit).2,
    (relayHandler_registry reg ws send msgs exit).1⟩

theorem lanIpCandidates_eq (discovered : List String) :
    lanIpCandidates discovered =
      if (pySortedSet (discovered.filter lanFilter)).isEmpty then
        ["127.0.0.1"]
      else
        sortStrs ((pySortedSet (discovered.filter lanFilter)).filter
            isRfc1918Ip) ++
          (pySortedSet (discovered.filter lanFilter)).filter
            (fun ip => decide (ip ∉ sortStrs ((pySortedSet
              (discovered.filter lanFilter)).filter isRfc1918Ip))) :=
  rfl

/-- C10: the LAN-address helper never returns an empty list; when every
discovered address is filtered out (loopback 127.*, link-local 169.254.*,
empty strings) it returns exactly the loopback fallback, and otherwise its
result splits into a block of RFC1918 addresses followed by a block of
non-RFC1918 addresses and contains exactly the discovered addresses that
survive the filter; selecting the first candidate therefore never fails. -/
theorem c10_lan_candidates (discovered : List String) :
    lanIpCandidates discovered ≠ [] ∧
      (discovered.filter lanFilter = [] →
        lanIpCandidates discovered = ["127.0.0.1"]) ∧
      ∃ pre rest,
        lanIpCandidates discovered = pre ++ rest ∧
          (∀ ip ∈ pre, isRfc1918Ip ip = true) ∧
          (∀ ip ∈ rest, isRfc1918Ip ip = false) ∧
          (discovered.filter lanFilter ≠ [] → ∀ ip : String,
            ip ∈ lanIpCandidates discovered ↔
              ip ∈ discovered.filter lanFilter) := by
  by_cases hemp : (pySortedSet (discovered.filter lanFilter)).isEmpty
  · have hres : lanIpCandidates discovered = ["127.0.0.1"] := by
      rw [lanIpCandidates_eq, if_pos hemp]
    have hfil : discovered.filter lanFilter = [] :=
      (pySortedSet_isEmpty _).mp hemp
    refine ⟨by simp [hres], fun _ => hres,
      [], ["127.0.0.1"], by simpa using hres, by simp, ?_, ?_⟩
    · intro ip hip
      have : ip = "127.0.0.1" := by simpa using hip
      subst this
      decide
    · intro hne
      exact absurd hfil hne
  · have hres : lanIpCandidates discovered =
        sortStrs ((pySortedSet (discovered.filter lanFilter)).filter
            isRfc1918Ip) ++
          (pySortedSet (discovered.filter lanFilter)).filter
            (fun ip => decide (ip ∉ sortStrs ((pySortedSet
              (discovered.filter lanFilter)).filter isRfc1918Ip))) := by
      rw [lanIpCandidates_eq, if_neg hemp]
    have hmem_pre : ∀ ip : String,
        ip ∈ sortStrs ((pySortedSet (discovered.filter lanFilter)).filter
          isRfc1918Ip) ↔
          ip ∈ pySortedSet (discovered.filter lanFilter) ∧
            isRfc1918Ip ip = true := by
      intro ip
      rw [mem_sortStrs, List.mem_filter]
    have hmem_rest : ∀ ip : String,
        ip ∈ (pySortedSet (discovered.filter lanFilter)).filter
            (fun ip => decide (ip ∉ sortStrs ((pySortedSet
              (discovered.filter lanFilter)).filter isRfc1918Ip))) ↔
          ip ∈ pySortedSet (discovered.filter lanFilter) ∧
            ip ∉ sortStrs ((pySortedSet (discovered.filter
              lanFilter)).filter isRfc1918Ip) := by
      intro ip
      rw [List.mem_filter]
      simp
    have hrest_not : ∀ ip : String,
        ip ∈ (pySortedSet (discovered.filter lanFilter)).filter
            (fun ip => decide (ip ∉ sortStrs ((pySortedSet
              (discovered.filter lanFilter)).filter isRfc1918Ip))) →
          isRfc1918Ip ip = false := by
      intro ip hip
      rcases (hmem_rest ip).mp hip with ⟨hips, hnpre⟩
      rcases hb : isRfc1918Ip ip with _ | _
      · rfl
      · exact absurd ((hmem_pre ip).mpr ⟨hips, hb⟩) hnpre
    have hsplit_mem : ∀ ip : String,
        ip ∈ lanIpCandidates discovered ↔
          ip ∈ pySortedSet (discovered.filter lanFilter) := by
      intro ip
      rw [hres, List.mem_append]
      constructor
      · rintro (hp | hr)
        · exact ((hmem_pre ip).mp hp).1
        · exact ((hmem_rest ip).mp hr).1
      · intro hips
        rcases hb : isRfc1918Ip ip with _ | _
        · refine Or.inr ((hmem_rest ip).mpr ⟨hips, fun hp => ?_⟩)
          rw [((hmem_pre ip).mp hp).2] at hb
          cases hb
        · exact Or.inl ((hmem_pre ip).mpr ⟨hips, hb⟩)
    have hne : lanIpCandidates discovered ≠ [] := by
      intro hnil
      rcases hips : pySortedSet (discovered.filter lanFilter) with _ | ⟨a, t⟩
      · rw [hips] at hemp
        exact hemp rfl
      · have ha : a ∈ pySortedSet (discovered.filter lanFilter) := by
          rw [hips]; exact .head _
        have : a ∈ lanIpCandidates discovered := (hsplit_mem a).mpr ha
        rw [hnil] at this
        cases this
    refine ⟨hne, fun hfil => absurd ((pySortedSet_isEmpty _).mpr hfil) hemp,
      _, _, hres, ?_, hrest_not, ?_⟩
    · intro ip hip
      exact ((hmem_pre ip).mp hip).2
    · intro _ ip
      rw [hsplit_mem ip, mem_pySortedSet]

theorem c10_lan_candidates_witness :
    (["127.0.0.1", "192.168.1.7", "8.8.4.4",
        "10.0.0.3"].filter lanFilter ≠ []) ∧
      lanIpCandidates ["127.0.0.1", "192.168.1.7", "8.8.4.4",
        "10.0.0.3"] ≠ [] ∧
      ("10.0.0.3" ∈ lanIpCandidates ["127.0.0.1", "192.168.1.7",
          "8.8.4.4", "10.0.0.3"] ↔
        "10.0.0.3" ∈ ["127.0.0.1", "192.168.1.7", "8.8.4.4",
          "10.0.0.3"].filter lanFilter) ∧
      (["127.0.0.1", "169.254.3.3"].filter lanFilter = []) ∧
      lanIpCandidates ["127.0.0.1", "169.254.3.3"] = ["127.0.0.1"] := by
  obtain ⟨hne, -, pre, rest, -, -, -, hmem⟩ :=
    c10_lan_candidates ["127.0.0.1", "192.168.1.7", "8.8.4.4", "10.0.0.3"]
  refine ⟨by decide, hne, hmem (by decide) _, by decide, ?_⟩
  exact (c10_lan_candidates ["127.0.0.1", "169.254.3.3"]).2.1 (by decide)

end WebrtcRelay
